import Mathlib

/-!
# KajovoPasport — verification of the image transform-and-crop core

Shallow embedding of `KajovoPasport/image_editor.py` (transform state,
compositor geometry, debounced render scheduling, save flow),
`KajovoPasport/db.py` (card/image store), and the image-selection flow of
`KajovoPasport/app.py`.

Python floats are modelled as exact rationals (`ℚ`), Python ints as `ℤ`,
byte blobs as `List ℕ`, timestamps as `String`.  Python's built-in `round`
(round-half-to-even) is modelled by `pyRound`.  The external PIL raster
primitives (Lanczos resize, bicubic rotate-with-expand, per-pixel alpha
blending) are opaque parameters of the model (`Resampler`): they are
library code, not code of this repository; everything this file proves is
independent of their pixel arithmetic.
-/

namespace KajovoPasport

/-- Python's `round` on an exact rational: round half to even
(banker's rounding), as used by `int(round(...))` in `image_editor.py`. -/
def pyRound (q : ℚ) : ℤ :=
  if q - ⌊q⌋ < 1/2 then ⌊q⌋
  else if 1/2 < q - ⌊q⌋ then ⌊q⌋ + 1
  else if ⌊q⌋ % 2 = 0 then ⌊q⌋ else ⌊q⌋ + 1

theorem floor_le_pyRound (q : ℚ) : ⌊q⌋ ≤ pyRound q := by
  unfold pyRound
  split
  · exact le_refl _
  · split
    · exact le_of_lt (lt_add_one _)
    · split
      · exact le_refl _
      · exact le_of_lt (lt_add_one _)

theorem pyRound_le_floor_add_one (q : ℚ) : pyRound q ≤ ⌊q⌋ + 1 := by
  unfold pyRound
  split
  · exact le_of_lt (lt_add_one _)
  · split
    · exact le_refl _
    · split
      · exact le_of_lt (lt_add_one _)
      · exact le_refl _

/-- If an integer is below the argument, it is below the rounding. -/
theorem le_pyRound_of_le (n : ℤ) (q : ℚ) (h : (n : ℚ) ≤ q) : n ≤ pyRound q :=
  le_trans (Int.le_floor.mpr h) (floor_le_pyRound q)

/-- Rounding a nonpositive rational gives a nonpositive integer. -/
theorem pyRound_nonpos (q : ℚ) (h : q ≤ 0) : pyRound q ≤ 0 := by
  rcases eq_or_lt_of_le h with heq | hlt
  · subst heq
    norm_num [pyRound]
  · have hfloor : ⌊q⌋ < 0 := by
      have : (⌊q⌋ : ℚ) ≤ q := Int.floor_le q
      exact_mod_cast Int.floor_lt.mpr (by exact_mod_cast hlt)
    have := pyRound_le_floor_add_one q
    omega

/-! ## Transform state (`TransformState` dataclass, image_editor.py lines 14–19) -/

/-- `TransformState`: zoom multiplier, rotation in degrees, pan offset in
output-canvas pixels (defaults are the identity transform). -/
structure TransformState where
  zoom : ℚ := 1
  angle_deg : ℤ := 0
  offset_x : ℚ := 0
  offset_y : ℚ := 0
  deriving Repr, DecidableEq

/-- `ImageEditor._zoom` (image_editor.py line 252): multiply the current
zoom by `factor` and clamp to `[0.2, 8.0]`. -/
def zoomStep (z factor : ℚ) : ℚ := max 0.2 (min 8.0 (z * factor))

/-- `ImageEditor._on_slider_change` (image_editor.py line 127): clamp the
slider value to `[0.3, 5.0]` and assign it. -/
def sliderClamp (v : ℚ) : ℚ := max 0.3 (min 5.0 v)

/-- `ImageEditor._rotate` (image_editor.py line 259): add the delta and
normalise modulo 360 (Python `%` on a positive modulus agrees with `Int.emod`). -/
def rotateAngle (a d : ℤ) : ℤ := (a + d) % 360

/-- The user gestures that mutate the transform state. -/
inductive Gesture where
  | rotate (deg : ℤ)
  | zoomBy (factor : ℚ)
  | sliderTo (value : ℚ)
  | dragTo (ox oy : ℚ)
  | reset
  deriving Repr, DecidableEq

/-- State mutation performed by each gesture handler of `ImageEditor`
(`_rotate`, `_zoom`, `_on_slider_change`, `_on_drag_move`, `_reset`). -/
def applyGesture : Gesture → TransformState → TransformState
  | .rotate d, s => { s with angle_deg := rotateAngle s.angle_deg d }
  | .zoomBy f, s => { s with zoom := zoomStep s.zoom f }
  | .sliderTo v, s => { s with zoom := sliderClamp v }
  | .dragTo ox oy, s => { s with offset_x := ox, offset_y := oy }
  | .reset, _ => {}

/-! ## Compositor (`ImageEditor.__init__` and `_render_output_image`) -/

/-- An RGBA pixel. -/
def RGBA : Type := ℕ × ℕ × ℕ × ℕ

/-- Opaque white, the background of the output canvas
(image_editor.py line 187). -/
def whitePixel : RGBA := (255, 255, 255, 255)

/-- A raster image: dimensions plus a pixel function. -/
structure PImage where
  width : ℤ
  height : ℤ
  pix : ℤ → ℤ → RGBA

/-- The external PIL raster primitives used by `_render_output_image`:
`Image.resize(..., LANCZOS)`, `Image.rotate(angle, expand=True, BICUBIC)`,
and the per-pixel alpha blend of `Image.alpha_composite`.  They are library
code, abstracted here; `resize` is required to honour the requested target
size, which PIL guarantees. -/
structure Resampler where
  resize : PImage → ℤ → ℤ → PImage
  rotateExpand : PImage → ℤ → PImage
  blend : RGBA → RGBA → RGBA
  resize_width : ∀ img w h, (resize img w h).width = w
  resize_height : ∀ img w h, (resize img w h).height = h

/-- `ImageEditor.__init__` line 45: the base "cover" scale,
`max(out_w / max(1, ow), out_h / max(1, oh))` (integer `max(1, ·)` guards,
then float division). -/
def baseScaleOf (out_w out_h ow oh : ℤ) : ℚ :=
  max ((out_w : ℚ) / ((max 1 ow : ℤ) : ℚ)) ((out_h : ℚ) / ((max 1 oh : ℤ) : ℚ))

/-- The editor session state: the fields of `ImageEditor` that the claims
touch (source image, output size, transform state, derived base scale, and
the bookkeeping fields `_drag_start`, `_pending_render`, `_result_png`,
plus whether the dialog has been destroyed). -/
structure EditorState where
  original : PImage
  out_w : ℤ
  out_h : ℤ
  state : TransformState
  base_scale : ℚ
  drag_start : Option (ℤ × ℤ × ℚ × ℚ)
  pending_render : Option ℤ
  result_png : Option (List ℕ)
  destroyed : Bool

/-- `ImageEditor.__init__` (lines 39–57): fresh identity transform state,
base scale computed from the source and output sizes, no drag in progress,
no pending render, no result yet. -/
def mkEditor (img : PImage) (out_w out_h : ℤ) : EditorState where
  original := img
  out_w := out_w
  out_h := out_h
  state := {}
  base_scale := baseScaleOf out_w out_h img.width img.height
  drag_start := none
  pending_render := none
  result_png := none
  destroyed := false

/-- `total_scale = self.base_scale * self.state.zoom` (line 190). -/
def totalScale (e : EditorState) : ℚ := e.base_scale * e.state.zoom

/-- `sw = max(1, int(round(ow * total_scale)))` (line 191). -/
def scaledW (e : EditorState) : ℤ := max 1 (pyRound (e.original.width * totalScale e))

/-- `sh = max(1, int(round(oh * total_scale)))` (line 192). -/
def scaledH (e : EditorState) : ℤ := max 1 (pyRound (e.original.height * totalScale e))

/-- Lines 196–204: resize the source to `(sw, sh)`, then rotate by
`angle_deg % 360` with expand semantics, skipping the rotation entirely
when the normalised angle is zero. -/
def rotatedImg (R : Resampler) (e : EditorState) : PImage :=
  if e.state.angle_deg % 360 = 0 then R.resize e.original (scaledW e) (scaledH e)
  else R.rotateExpand (R.resize e.original (scaledW e) (scaledH e)) (e.state.angle_deg % 360)

/-- `left = int(round(cx - rw / 2))` with `cx = out_w / 2 + offset_x`
(lines 207–211). -/
def pasteLeft (R : Resampler) (e : EditorState) : ℤ :=
  pyRound ((e.out_w : ℚ) / 2 + e.state.offset_x - ((rotatedImg R e).width : ℚ) / 2)

/-- `top = int(round(cy - rh / 2))` with `cy = out_h / 2 + offset_y`
(lines 208–212). -/
def pasteTop (R : Resampler) (e : EditorState) : ℤ :=
  pyRound ((e.out_h : ℚ) / 2 + e.state.offset_y - ((rotatedImg R e).height : ℚ) / 2)

/-- Whether output pixel `(x, y)` falls inside the pasted (rotated) image's
bounding rectangle (lines 214–215: `tmp.paste(rotated, (left, top), rotated)`). -/
def inPasteRect (R : Resampler) (e : EditorState) (x y : ℤ) : Prop :=
  pasteLeft R e ≤ x ∧ x < pasteLeft R e + (rotatedImg R e).width ∧
  pasteTop R e ≤ y ∧ y < pasteTop R e + (rotatedImg R e).height

instance (R : Resampler) (e : EditorState) (x y : ℤ) : Decidable (inPasteRect R e x y) := by
  unfold inPasteRect; infer_instance

/-- `ImageEditor._render_output_image` (lines 184–217): scale, rotate,
paste centred at the offset centre onto a transparent layer, and
alpha-composite that layer over the opaque white canvas.  Pixels outside
the pasted rectangle blend fully transparent pixels over white, i.e. stay
white; pixels inside blend the corresponding rotated-image pixel over
white. -/
def renderOutputImage (R : Resampler) (e : EditorState) : PImage where
  width := e.out_w
  height := e.out_h
  pix := fun x y =>
    if inPasteRect R e x y then
      R.blend whitePixel ((rotatedImg R e).pix (x - pasteLeft R e) (y - pasteTop R e))
    else whitePixel

/-! ## Editor controller: debounced render scheduling
(`_schedule_render`, `_render`, image_editor.py lines 130–141) -/

/-- The controller-side view of one editor session: the transform state,
the pending-render handle (modelled as the absolute fire time of the
`after(30, ...)` callback), and the history of fired renders (each records
the transform state the render read when it fired; latest first). -/
structure ControllerState where
  transform : TransformState
  pending : Option ℤ
  renders : List TransformState
  deriving Repr, DecidableEq

/-- `ImageEditor._schedule_render` (lines 130–133): if a render is already
pending do nothing, otherwise schedule one 30 ms from now. -/
def scheduleRender (now : ℤ) (c : ControllerState) : ControllerState :=
  match c.pending with
  | some _ => c
  | none => { c with pending := some (now + 30) }

/-- A gesture handler: mutate the transform state, then call
`_schedule_render` (every mutating handler in image_editor.py ends with
`self._schedule_render()`). -/
def onGesture (now : ℤ) (g : Gesture) (c : ControllerState) : ControllerState :=
  scheduleRender now { c with transform := applyGesture g c.transform }

/-- The pending `after` callback firing `ImageEditor._render`
(lines 135–141): clear the pending handle and render, reading the
transform state as it is **now**. -/
def fireRender (c : ControllerState) : ControllerState :=
  { c with pending := none, renders := c.transform :: c.renders }

/-- Run a batch of timestamped gestures through the controller. -/
def runGestures (c : ControllerState) (gs : List (ℤ × Gesture)) : ControllerState :=
  gs.foldl (fun acc tg => onGesture tg.1 tg.2 acc) c

/-! ## Save flow (`ImageEditor._on_save`, lines 266–274) and
image-selection flow (`App._select_image_for_field`, app.py lines 621–641) -/

/-- Outcome of `_on_save` as seen by the user: either the dialog closed
with a result, or an error box was shown. -/
inductive SaveOutcome where
  | saved
  | errorShown
  deriving Repr, DecidableEq

/-- `ImageEditor._on_save`: render the output image, encode it to PNG
bytes (`encode`, the external `Image.save` call, which may fail); on
success store the bytes in `_result_png` and destroy the dialog, on
failure show an error box and leave every field of the session unchanged. -/
def onSave (R : Resampler) (encode : PImage → Option (List ℕ)) (e : EditorState) :
    EditorState × SaveOutcome :=
  match encode (renderOutputImage R e) with
  | some png => ({ e with result_png := some png, destroyed := true }, .saved)
  | none => (e, .errorShown)

/-- Outcome of `App._select_image_for_field` after a file was chosen:
either decoding failed (error box, no editor), or the editor dialog was
opened on the decoded image. -/
inductive SelectOutcome where
  | decodeError
  | editorOpened (e : EditorState)

/-- `App._select_image_for_field` (app.py lines 632–639): `Image.open`
either raises (error box shown, return — the editor never opens) or yields
a decoded image, in which case `edit_image_dialog` constructs an
`ImageEditor` unconditionally — there is no dimension check anywhere on
the path. -/
def selectImageForField (decoded : Option PImage) (out_w out_h : ℤ) : SelectOutcome :=
  match decoded with
  | none => .decodeError
  | some img => .editorOpened (mkEditor img out_w out_h)

/-! ## Card store (`KajovoPasport/db.py`) -/

/-- A row of the `images` table: `(card_id, field_key)` primary key, a
nullable PNG blob, and an `updated_at` timestamp. -/
structure ImageRow where
  card_id : ℤ
  field_key : String
  png : Option (List ℕ)
  updated_at : String
  deriving Repr, DecidableEq

/-- A row of the `cards` table. -/
structure CardRow where
  id : ℤ
  name : String
  created_at : String
  updated_at : String
  deriving Repr, DecidableEq

/-- The database: the two tables. -/
structure Database where
  cards : List CardRow
  images : List ImageRow
  deriving Repr, DecidableEq

/-- Does an image row match the `(card_id, field_key)` primary key? -/
def rowMatch (c : ℤ) (k : String) (r : ImageRow) : Bool :=
  decide (r.card_id = c ∧ r.field_key = k)

/-- The `INSERT ... ON CONFLICT(card_id, field_key) DO UPDATE` of
`Database.set_image` (db.py lines 107–114) on the `images` table: if a row
with the key exists, update its `png` and `updated_at` in place, otherwise
insert a fresh row. -/
def upsertImage (rows : List ImageRow) (c : ℤ) (k : String) (v : Option (List ℕ))
    (ts : String) : List ImageRow :=
  if rows.any (rowMatch c k) then
    rows.map (fun r => if rowMatch c k r then { r with png := v, updated_at := ts } else r)
  else rows ++ [⟨c, k, v, ts⟩]

/-- `Database.touch_card` (db.py lines 84–87): bump the card's
`updated_at`. -/
def touch_card (db : Database) (card_id : ℤ) (ts : String) : Database :=
  { db with cards := db.cards.map (fun r =>
      if r.id = card_id then { r with updated_at := ts } else r) }

/-- `Database.set_image` (db.py lines 105–115): upsert the image row, then
touch the card.  `ts` is the `now_utc()` reading taken by the call. -/
def set_image (db : Database) (card_id : ℤ) (field_key : String)
    (png_bytes : Option (List ℕ)) (ts : String) : Database :=
  touch_card { db with images := upsertImage db.images card_id field_key png_bytes ts }
    card_id ts

/-- `Database.get_images_for_card` (db.py lines 89–95): all rows of the
card whose blob is non-NULL, as a `field_key -> bytes` mapping. -/
def get_images_for_card (db : Database) (card_id : ℤ) : List (String × List ℕ) :=
  db.images.filterMap (fun r =>
    if r.card_id = card_id then r.png.map (fun b => (r.field_key, b)) else none)

/-- `Database.get_image` (db.py lines 97–103): the blob of the matching
row, or `none` when there is no row or its blob is NULL. -/
def get_image (db : Database) (card_id : ℤ) (field_key : String) : Option (List ℕ) :=
  match db.images.find? (rowMatch card_id field_key) with
  | none => none
  | some r => r.png

/-- The `updated_at` of a card (via the first row with its id, as a
`SELECT` on the primary key would return). -/
def cardUpdatedAt (db : Database) (card_id : ℤ) : Option String :=
  (db.cards.find? (fun r => decide (r.id = card_id))).map (fun r => r.updated_at)

/-- Number of `images` rows with the given primary key; the `PRIMARY KEY
(card_id, field_key)` constraint keeps this at most 1. -/
def countKey (rows : List ImageRow) (c : ℤ) (k : String) : ℕ :=
  (rows.filter (rowMatch c k)).length

/-- The primary-key invariant of the `images` table: no two rows share
`(card_id, field_key)`. -/
def ImagesWF (rows : List ImageRow) : Prop :=
  rows.Pairwise (fun r1 r2 => ¬(r1.card_id = r2.card_id ∧ r1.field_key = r2.field_key))

/-! ## Shared concrete fixtures (used by witnesses) -/

/-- A trivial but fully concrete resampler: resize reinterprets the pixel
function at the requested size, rotation is the identity, blending returns
the top pixel. -/
def idResampler : Resampler where
  resize := fun img w h => ⟨w, h, img.pix⟩
  rotateExpand := fun img _ => img
  blend := fun _ t => t
  resize_width := fun _ _ _ => rfl
  resize_height := fun _ _ _ => rfl

/-- A concrete 100×80 opaque source image. -/
def testImage : PImage := ⟨100, 80, fun _ _ => (0, 0, 0, 255)⟩

/-! ## C2 — zoom clamping and non-associativity at the boundary -/

/-- **C2.** Every wheel/button zoom step (`_zoom`) lands in `[0.2, 8.0]`
and every slider assignment (`_on_slider_change`) lands in `[0.3, 5.0]`;
and because `_zoom` multiplies then clamps, two successive steps are not
always equivalent to one step by the product of the factors: witness
`z = 1`, `f1 = 100`, `f2 = 1/100`. -/
theorem zoom_clamped_and_nonassociative :
    (∀ z f : ℚ, 0.2 ≤ zoomStep z f ∧ zoomStep z f ≤ 8.0) ∧
    (∀ v : ℚ, 0.3 ≤ sliderClamp v ∧ sliderClamp v ≤ 5.0) ∧
    (∃ z f1 f2 : ℚ, zoomStep (zoomStep z f1) f2 ≠ zoomStep z (f1 * f2)) := by
  refine ⟨fun z f => ⟨le_max_left _ _, max_le (by norm_num) (min_le_left _ _)⟩,
    fun v => ⟨le_max_left _ _, max_le (by norm_num) (min_le_left _ _)⟩,
    1, 100, 1/100, ?_⟩
  have h1 : zoomStep 1 100 = 8 := by
    unfold zoomStep; norm_num [min_def, max_def]
  have h2 : zoomStep 8 (1/100) = 0.2 := by
    unfold zoomStep; norm_num [min_def, max_def]
  have h3 : zoomStep 1 (100 * (1/100)) = 1 := by
    unfold zoomStep; norm_num [min_def, max_def]
  rw [h1, h2, h3]
  norm_num

/-! ## C3 — rotation normalization -/

theorem foldl_rotate_angle (ds : List ℤ) (t : TransformState) :
    (ds.foldl (fun u d => applyGesture (.rotate d) u) t).angle_deg =
      ds.foldl rotateAngle t.angle_deg := by
  induction ds generalizing t with
  | nil => rfl
  | cons d ds ih => simpa using ih { t with angle_deg := rotateAngle t.angle_deg d }

theorem foldl_rotateAngle_range (ds : List ℤ) (a : ℤ) (h0 : 0 ≤ a) (h1 : a < 360) :
    0 ≤ ds.foldl rotateAngle a ∧ ds.foldl rotateAngle a < 360 := by
  induction ds generalizing a with
  | nil => exact ⟨h0, h1⟩
  | cons d ds ih =>
    refine ih (rotateAngle a d) ?_ ?_ <;> · unfold rotateAngle; omega

/-- **C3.** `_rotate(d)` sets `angle_deg` to `(angle_deg + d) mod 360`;
angle stays in `[0, 360)` after any sequence of rotate calls starting from
the fresh editor state; and `rotate(360)` leaves a normalized state
unchanged. -/
theorem rotate_normalized (ds : List ℤ) (s : TransformState)
    (h1 : 0 ≤ s.angle_deg) (h2 : s.angle_deg < 360) :
    (∀ d, (applyGesture (.rotate d) s).angle_deg = (s.angle_deg + d) % 360) ∧
    (0 ≤ (ds.foldl (fun u d => applyGesture (.rotate d) u) ({} : TransformState)).angle_deg ∧
      (ds.foldl (fun u d => applyGesture (.rotate d) u) ({} : TransformState)).angle_deg < 360) ∧
    applyGesture (.rotate 360) s = s := by
  refine ⟨fun d => rfl, ?_, ?_⟩
  · rw [foldl_rotate_angle]
    exact foldl_rotateAngle_range ds 0 (by omega) (by omega)
  · have ha : rotateAngle s.angle_deg 360 = s.angle_deg := by
      unfold rotateAngle; omega
    cases s
    simp only [applyGesture] at ha ⊢
    simp_all

theorem rotate_normalized_witness :
    (0 : ℤ) ≤ (123 : ℤ) ∧ (123 : ℤ) < 360 ∧
    applyGesture (.rotate 360) ({ zoom := 1, angle_deg := 123 } : TransformState) =
      { zoom := 1, angle_deg := 123 } :=
  ⟨by decide, by decide,
    (rotate_normalized [90, -45, 300] { zoom := 1, angle_deg := 123 }
      (by decide) (by decide)).2.2⟩

/-! ## C9 — encode failure keeps the session alive -/

/-- **C9.** `_on_save`: if the final render-to-bytes encode fails, an
error is shown and the session state is returned entirely unchanged (the
dialog is not destroyed, the transform model is intact, no result is
emitted); only a successful encode stores the result bytes and destroys
the dialog. -/
theorem save_preserves_session_on_encode_failure (R : Resampler)
    (encode : PImage → Option (List ℕ)) (e : EditorState) :
    (encode (renderOutputImage R e) = none →
      onSave R encode e = (e, .errorShown)) ∧
    (∀ png, encode (renderOutputImage R e) = some png →
      onSave R encode e = ({ e with result_png := some png, destroyed := true }, .saved)) := by
  constructor
  · intro h
    unfold onSave
    rw [h]
  · intro png h
    unfold onSave
    rw [h]

theorem save_preserves_session_witness :
    onSave idResampler (fun _ => none) (mkEditor testImage 400 600) =
      (mkEditor testImage 400 600, .errorShown) :=
  (save_preserves_session_on_encode_failure idResampler (fun _ => none)
    (mkEditor testImage 400 600)).1 rfl

/-! ## C5 — the compositor render is deterministic -/

/-- **C5.** `_render_output_image` reads only the source image, the output
dimensions, the base scale and the transform state: any two editor states
(two runs) agreeing on those produce identical pixel content, whatever
their drag/pending/result bookkeeping fields are, and the render does not
mutate any state. -/
theorem render_deterministic (R : Resampler) (e1 e2 : EditorState)
    (horig : e1.original = e2.original) (hw : e1.out_w = e2.out_w)
    (hh : e1.out_h = e2.out_h) (hb : e1.base_scale = e2.base_scale)
    (hs : e1.state = e2.state) :
    renderOutputImage R e1 = renderOutputImage R e2 := by
  simp only [renderOutputImage, inPasteRect, pasteLeft, pasteTop, rotatedImg,
    scaledW, scaledH, totalScale, horig, hw, hh, hb, hs]

theorem render_deterministic_witness :
    renderOutputImage idResampler (mkEditor testImage 400 600) =
      renderOutputImage idResampler
        { mkEditor testImage 400 600 with
            drag_start := some (5, 7, 1, 2), pending_render := some 99 } :=
  render_deterministic idResampler _ _ rfl rfl rfl rfl rfl

/-! ## C4 — debounce coalescing -/

theorem scheduleRender_transform (now : ℤ) (c : ControllerState) :
    (scheduleRender now c).transform = c.transform := by
  unfold scheduleRender
  cases c.pending <;> rfl

theorem scheduleRender_renders (now : ℤ) (c : ControllerState) :
    (scheduleRender now c).renders = c.renders := by
  unfold scheduleRender
  cases c.pending <;> rfl

theorem scheduleRender_pending_some (now : ℤ) (c : ControllerState) (p : ℤ)
    (h : c.pending = some p) : (scheduleRender now c).pending = some p := by
  unfold scheduleRender
  rw [h]
  exact h

theorem runGestures_transform (gs : List (ℤ × Gesture)) (c : ControllerState) :
    (runGestures c gs).transform = gs.foldl (fun s tg => applyGesture tg.2 s) c.transform := by
  induction gs generalizing c with
  | nil => rfl
  | cons tg gs ih =>
    show (runGestures (onGesture tg.1 tg.2 c) gs).transform = _
    rw [ih, List.foldl_cons]
    unfold onGesture
    rw [scheduleRender_transform]

theorem runGestures_renders (gs : List (ℤ × Gesture)) (c : ControllerState) :
    (runGestures c gs).renders = c.renders := by
  induction gs generalizing c with
  | nil => rfl
  | cons tg gs ih =>
    show (runGestures (onGesture tg.1 tg.2 c) gs).renders = _
    rw [ih]
    unfold onGesture
    rw [scheduleRender_renders]

theorem runGestures_pending_some (gs : List (ℤ × Gesture)) (c : ControllerState) (p : ℤ)
    (h : c.pending = some p) : (runGestures c gs).pending = some p := by
  induction gs generalizing c with
  | nil => exact h
  | cons tg gs ih =>
    show (runGestures (onGesture tg.1 tg.2 c) gs).pending = some p
    exact ih _ (scheduleRender_pending_some _ _ _ h)

/-- **C4.** Starting idle (no pending render, nothing rendered yet), a
batch of `N ≥ 1` mutating gestures all arriving within one debounce
interval of the first schedules exactly one render — at 30 ms after the
first gesture, later gestures finding a pending render schedule nothing —
and no render fires during the batch; when the pending callback fires it
produces exactly one render, reading the state after **all** `N`
mutations (the latest state at fire time, not the state at schedule
time), and clears the pending handle. -/
theorem debounce_coalesces (c0 : ControllerState) (h0 : c0.pending = none)
    (hr : c0.renders = []) (t1 : ℤ) (g1 : Gesture) (rest : List (ℤ × Gesture))
    (_hwin : ∀ tg ∈ rest, tg.1 < t1 + 30) :
    (runGestures c0 ((t1, g1) :: rest)).pending = some (t1 + 30) ∧
    (runGestures c0 ((t1, g1) :: rest)).renders = [] ∧
    fireRender (runGestures c0 ((t1, g1) :: rest)) =
      { transform := ((t1, g1) :: rest).foldl (fun s tg => applyGesture tg.2 s) c0.transform,
        pending := none,
        renders := [((t1, g1) :: rest).foldl (fun s tg => applyGesture tg.2 s) c0.transform] } := by
  have hstep : (onGesture t1 g1 c0).pending = some (t1 + 30) := by
    unfold onGesture scheduleRender
    rw [show ({ c0 with transform := applyGesture g1 c0.transform } : ControllerState).pending
        = c0.pending from rfl, h0]
  have hpend : (runGestures c0 ((t1, g1) :: rest)).pending = some (t1 + 30) := by
    show (runGestures (onGesture t1 g1 c0) rest).pending = some (t1 + 30)
    exact runGestures_pending_some rest _ _ hstep
  have hrend : (runGestures c0 ((t1, g1) :: rest)).renders = [] := by
    rw [runGestures_renders, hr]
  have htr := runGestures_transform ((t1, g1) :: rest) c0
  refine ⟨hpend, hrend, ?_⟩
  unfold fireRender
  rw [htr, hrend]

theorem debounce_coalesces_witness :
    (({ transform := {}, pending := none, renders := [] } : ControllerState).pending = none) ∧
    (({ transform := {}, pending := none, renders := [] } : ControllerState).renders = []) ∧
    (∀ tg ∈ [((10 : ℤ), Gesture.zoomBy 2)], tg.1 < (0 : ℤ) + 30) ∧
    (runGestures { transform := {}, pending := none, renders := [] }
      [((0 : ℤ), Gesture.rotate 90), ((10 : ℤ), Gesture.zoomBy 2)]).pending = some 30 :=
  ⟨rfl, rfl, by decide,
    by
      have h := debounce_coalesces { transform := {}, pending := none, renders := [] }
        rfl rfl 0 (.rotate 90) [((10 : ℤ), Gesture.zoomBy 2)] (by decide)
      simpa using h.1⟩

/-! ## C1 — base scale is a "cover" fit -/

theorem le_max_one_pyRound (n : ℤ) (q : ℚ) (h : (n : ℚ) ≤ q) :
    n ≤ max 1 (pyRound q) :=
  le_trans (le_pyRound_of_le n q h) (le_max_right 1 _)

/-- **C1.** For positive source and output dimensions the base scale of a
fresh editor equals `max(out_w / src_w, out_h / src_h)`, and rendering at
zoom 1, angle 0, offset (0,0) pastes the scaled source over every pixel of
the output canvas: each output pixel lies inside the pasted rectangle and
is blended from the scaled image, never the bare white background — no
white gaps at any edge. -/
theorem base_scale_covers_output (R : Resampler) (img : PImage) (out_w out_h : ℤ)
    (hw : 0 < img.width) (hh : 0 < img.height)
    (_how : 0 < out_w) (_hoh : 0 < out_h) :
    (mkEditor img out_w out_h).base_scale =
      max ((out_w : ℚ) / (img.width : ℚ)) ((out_h : ℚ) / (img.height : ℚ)) ∧
    ∀ x y : ℤ, 0 ≤ x → x < out_w → 0 ≤ y → y < out_h →
      inPasteRect R (mkEditor img out_w out_h) x y ∧
      (renderOutputImage R (mkEditor img out_w out_h)).pix x y =
        R.blend whitePixel ((rotatedImg R (mkEditor img out_w out_h)).pix
          (x - pasteLeft R (mkEditor img out_w out_h))
          (y - pasteTop R (mkEditor img out_w out_h))) := by
  have hwQ : (0 : ℚ) < (img.width : ℚ) := by exact_mod_cast hw
  have hhQ : (0 : ℚ) < (img.height : ℚ) := by exact_mod_cast hh
  have hbase : (mkEditor img out_w out_h).base_scale =
      max ((out_w : ℚ) / (img.width : ℚ)) ((out_h : ℚ) / (img.height : ℚ)) := by
    show baseScaleOf out_w out_h img.width img.height = _
    unfold baseScaleOf
    rw [show (max 1 img.width : ℤ) = img.width by omega,
      show (max 1 img.height : ℤ) = img.height by omega]
  have hts : totalScale (mkEditor img out_w out_h) =
      max ((out_w : ℚ) / (img.width : ℚ)) ((out_h : ℚ) / (img.height : ℚ)) := by
    unfold totalScale
    rw [hbase, show (mkEditor img out_w out_h).state.zoom = 1 from rfl, mul_one]
  have hswQ : (out_w : ℚ) ≤
      ((mkEditor img out_w out_h).original.width : ℚ) * totalScale (mkEditor img out_w out_h) := by
    rw [hts, show (mkEditor img out_w out_h).original = img from rfl]
    calc (out_w : ℚ) = (img.width : ℚ) * ((out_w : ℚ) / (img.width : ℚ)) := by
          field_simp
      _ ≤ (img.width : ℚ) *
            max ((out_w : ℚ) / (img.width : ℚ)) ((out_h : ℚ) / (img.height : ℚ)) :=
          mul_le_mul_of_nonneg_left (le_max_left _ _) (le_of_lt hwQ)
  have hshQ : (out_h : ℚ) ≤
      ((mkEditor img out_w out_h).original.height : ℚ) * totalScale (mkEditor img out_w out_h) := by
    rw [hts, show (mkEditor img out_w out_h).original = img from rfl]
    calc (out_h : ℚ) = (img.height : ℚ) * ((out_h : ℚ) / (img.height : ℚ)) := by
          field_simp
      _ ≤ (img.height : ℚ) *
            max ((out_w : ℚ) / (img.width : ℚ)) ((out_h : ℚ) / (img.height : ℚ)) :=
          mul_le_mul_of_nonneg_left (le_max_right _ _) (le_of_lt hhQ)
  have hsw : out_w ≤ scaledW (mkEditor img out_w out_h) :=
    le_max_one_pyRound _ _ hswQ
  have hsh : out_h ≤ scaledH (mkEditor img out_w out_h) :=
    le_max_one_pyRound _ _ hshQ
  have hrot : rotatedImg R (mkEditor img out_w out_h) =
      R.resize (mkEditor img out_w out_h).original
        (scaledW (mkEditor img out_w out_h)) (scaledH (mkEditor img out_w out_h)) := by
    unfold rotatedImg
    rw [show (mkEditor img out_w out_h).state.angle_deg = 0 from rfl]
    rfl
  have hrw : (rotatedImg R (mkEditor img out_w out_h)).width =
      scaledW (mkEditor img out_w out_h) := by
    rw [hrot, R.resize_width]
  have hrh : (rotatedImg R (mkEditor img out_w out_h)).height =
      scaledH (mkEditor img out_w out_h) := by
    rw [hrot, R.resize_height]
  have hswQ2 : (out_w : ℚ) ≤ (scaledW (mkEditor img out_w out_h) : ℚ) := by
    exact_mod_cast hsw
  have hshQ2 : (out_h : ℚ) ≤ (scaledH (mkEditor img out_w out_h) : ℚ) := by
    exact_mod_cast hsh
  have hleft0 : pasteLeft R (mkEditor img out_w out_h) ≤ 0 := by
    unfold pasteLeft
    apply pyRound_nonpos
    rw [hrw, show (mkEditor img out_w out_h).state.offset_x = 0 from rfl,
      show (mkEditor img out_w out_h).out_w = out_w from rfl]
    linarith
  have htop0 : pasteTop R (mkEditor img out_w out_h) ≤ 0 := by
    unfold pasteTop
    apply pyRound_nonpos
    rw [hrh, show (mkEditor img out_w out_h).state.offset_y = 0 from rfl,
      show (mkEditor img out_w out_h).out_h = out_h from rfl]
    linarith
  have hleft1 : out_w - scaledW (mkEditor img out_w out_h) ≤
      pasteLeft R (mkEditor img out_w out_h) := by
    unfold pasteLeft
    apply le_pyRound_of_le
    rw [hrw, show (mkEditor img out_w out_h).state.offset_x = 0 from rfl,
      show (mkEditor img out_w out_h).out_w = out_w from rfl]
    push_cast
    linarith
  have htop1 : out_h - scaledH (mkEditor img out_w out_h) ≤
      pasteTop R (mkEditor img out_w out_h) := by
    unfold pasteTop
    apply le_pyRound_of_le
    rw [hrh, show (mkEditor img out_w out_h).state.offset_y = 0 from rfl,
      show (mkEditor img out_w out_h).out_h = out_h from rfl]
    push_cast
    linarith
  refine ⟨hbase, fun x y hx0 hx1 hy0 hy1 => ?_⟩
  have hin : inPasteRect R (mkEditor img out_w out_h) x y := by
    refine ⟨by omega, by rw [hrw]; omega, by omega, by rw [hrh]; omega⟩
  refine ⟨hin, ?_⟩
  show (if inPasteRect R (mkEditor img out_w out_h) x y then _ else _) = _
  rw [if_pos hin]

theorem base_scale_covers_output_witness :
    (0 : ℤ) < testImage.width ∧ (0 : ℤ) < testImage.height ∧
    (0 : ℤ) < (400 : ℤ) ∧ (0 : ℤ) < (600 : ℤ) ∧
    (mkEditor testImage 400 600).base_scale =
      max ((400 : ℚ) / (testImage.width : ℚ)) ((600 : ℚ) / (testImage.height : ℚ)) ∧
    inPasteRect idResampler (mkEditor testImage 400 600) 0 0 :=
  ⟨by decide, by decide, by decide, by decide,
    (base_scale_covers_output idResampler testImage 400 600
      (by decide) (by decide) (by decide) (by decide)).1,
    ((base_scale_covers_output idResampler testImage 400 600
      (by decide) (by decide) (by decide) (by decide)).2 0 0
      (by decide) (by decide) (by decide) (by decide)).1⟩

/-! ## C6 — zero-dimension sources: no error, the editor opens anyway -/

/-- A decodable image with zero width. -/
def zeroWidthImage : PImage := ⟨0, 10, fun _ _ => (0, 0, 0, 255)⟩

/-- **C6, counterexample.** A decoded source of width 0 does **not** fail:
`_select_image_for_field` opens the editor on it, and the editor computes
a well-defined base scale (the `max(1, ·)` guard silently replaces the
zero divisor), contradicting "fails with an InvalidImage error … the
editor never opens for such a source". -/
theorem zero_width_source_opens_editor :
    selectImageForField (some zeroWidthImage) 400 600 =
      .editorOpened (mkEditor zeroWidthImage 400 600) ∧
    (mkEditor zeroWidthImage 400 600).base_scale = 400 := by
  refine ⟨rfl, ?_⟩
  show baseScaleOf 400 600 zeroWidthImage.width zeroWidthImage.height = 400
  unfold baseScaleOf zeroWidthImage
  norm_num [max_def]

/-- **C6, amended.** No division by zero can occur: the base-scale
divisors are the integer guards `max(1, dim) ≥ 1`.  A source that fails to
decode is surfaced as an error and the editor does not open; but a
successfully decoded source opens the editor unconditionally — there is no
dimension validation and no `InvalidImage` error anywhere on the path. -/
theorem select_flow_amended (img : PImage) (out_w out_h ow oh : ℤ) :
    selectImageForField none out_w out_h = .decodeError ∧
    selectImageForField (some img) out_w out_h = .editorOpened (mkEditor img out_w out_h) ∧
    (1 : ℤ) ≤ max 1 ow ∧ (1 : ℤ) ≤ max 1 oh ∧
    baseScaleOf out_w out_h ow oh =
      max ((out_w : ℚ) / ((max 1 ow : ℤ) : ℚ)) ((out_h : ℚ) / ((max 1 oh : ℤ) : ℚ)) :=
  ⟨rfl, rfl, le_max_left 1 ow, le_max_left 1 oh, rfl⟩

/-! ## Card store lemmas -/

theorem rowMatch_iff (c : ℤ) (k : String) (r : ImageRow) :
    rowMatch c k r = true ↔ r.card_id = c ∧ r.field_key = k := by
  unfold rowMatch
  exact decide_eq_true_iff

theorem rowMatch_update (c : ℤ) (k : String) (v : Option (List ℕ)) (ts : String)
    (r : ImageRow) :
    rowMatch c k (if rowMatch c k r then { r with png := v, updated_at := ts } else r) =
      rowMatch c k r := by
  by_cases h : rowMatch c k r = true
  · rw [if_pos h]
    rfl
  · rw [if_neg h]

theorem find_map_pred_inv {α : Type} (g : α → α) (p : α → Bool) (l : List α)
    (hinv : ∀ a, p (g a) = p a) : (l.map g).find? p = (l.find? p).map g := by
  induction l with
  | nil => rfl
  | cons a l ih =>
    by_cases h : p a = true
    · rw [List.map_cons, List.find?_cons_of_pos (l.map g) (show p (g a) by rw [hinv]; exact h),
        List.find?_cons_of_pos l h, Option.map_some']
    · rw [List.map_cons, List.find?_cons_of_neg (l.map g) (show ¬p (g a) by rw [hinv]; exact h),
        List.find?_cons_of_neg l h, ih]

theorem filter_map_pred_inv {α : Type} (g : α → α) (p : α → Bool) (l : List α)
    (hinv : ∀ a, p (g a) = p a) :
    ((l.map g).filter p).length = (l.filter p).length := by
  rw [List.filter_map, List.length_map]
  have hpg : p ∘ g = p := funext hinv
  rw [hpg]

/-- Every row matching the key after an upsert carries the upserted value. -/
theorem upsert_match_png (rows : List ImageRow) (c : ℤ) (k : String)
    (v : Option (List ℕ)) (ts : String) :
    ∀ r ∈ upsertImage rows c k v ts, rowMatch c k r = true → r.png = v := by
  unfold upsertImage
  by_cases hany : rows.any (rowMatch c k) = true
  · rw [if_pos hany]
    intro r hr hm
    rcases List.mem_map.mp hr with ⟨r0, hr0, heq⟩
    by_cases h0 : rowMatch c k r0 = true
    · rw [if_pos h0] at heq
      rw [← heq]
    · rw [if_neg h0] at heq
      rw [← heq] at hm
      exact absurd hm h0
  · rw [if_neg hany]
    intro r hr hm
    rcases List.mem_append.mp hr with h | h
    · exact absurd (List.any_eq_true.mpr ⟨r, h, hm⟩) hany
    · rw [List.mem_singleton.mp h]

/-- An upsert always leaves a row matching the key, carrying the value. -/
theorem upsert_mem_match (rows : List ImageRow) (c : ℤ) (k : String)
    (v : Option (List ℕ)) (ts : String) :
    ∃ r ∈ upsertImage rows c k v ts, rowMatch c k r = true ∧ r.png = v := by
  unfold upsertImage
  by_cases hany : rows.any (rowMatch c k) = true
  · rw [if_pos hany]
    rcases List.any_eq_true.mp hany with ⟨r0, hr0, hm⟩
    refine ⟨{ r0 with png := v, updated_at := ts }, ?_, ?_, rfl⟩
    · exact List.mem_map.mpr ⟨r0, hr0, by rw [if_pos hm]⟩
    · have := rowMatch_update c k v ts r0
      rw [if_pos hm] at this
      rw [this]
      exact hm
  · rw [if_neg hany]
    refine ⟨⟨c, k, v, ts⟩, ?_, ?_, rfl⟩
    · exact List.mem_append.mpr (Or.inr (List.mem_singleton.mpr rfl))
    · rw [rowMatch_iff]
      exact ⟨rfl, rfl⟩

/-- Membership in the mapping returned by `get_images_for_card`. -/
theorem mem_images_map (db : Database) (c : ℤ) (k : String) (b : List ℕ) :
    (k, b) ∈ get_images_for_card db c ↔
      ∃ r ∈ db.images, r.card_id = c ∧ r.field_key = k ∧ r.png = some b := by
  unfold get_images_for_card
  rw [List.mem_filterMap]
  constructor
  · rintro ⟨r, hr, hf⟩
    by_cases hc : r.card_id = c
    · rw [if_pos hc] at hf
      cases hpng : r.png with
      | none => rw [hpng] at hf; cases hf
      | some b0 =>
        rw [hpng, Option.map_some'] at hf
        have hk : r.field_key = k := congrArg Prod.fst (Option.some.inj hf)
        have hb : b0 = b := congrArg Prod.snd (Option.some.inj hf)
        exact ⟨r, hr, hc, hk, by rw [hpng, hb]⟩
    · rw [if_neg hc] at hf
      cases hf
  · rintro ⟨r, hr, hc, hk, hpng⟩
    exact ⟨r, hr, by rw [if_pos hc, hpng, Option.map_some', hk]⟩

/-- The images table after `set_image` (`touch_card` only rewrites cards). -/
theorem set_image_images (db : Database) (c : ℤ) (k : String) (v : Option (List ℕ))
    (ts : String) : (set_image db c k v ts).images = upsertImage db.images c k v ts := rfl

/-- After clearing a slot, neither variant of the key is in the mapping:
the shared content of C7 and C10. -/
theorem clear_absent (db : Database) (c : ℤ) (k : String) (ts : String) :
    ∀ b : List ℕ, (k, b) ∉ get_images_for_card (set_image db c k none ts) c := by
  intro b hmem
  rw [mem_images_map] at hmem
  rcases hmem with ⟨r, hr, hc, hk, hpng⟩
  rw [set_image_images] at hr
  have hnone := upsert_match_png db.images c k none ts r hr
    ((rowMatch_iff c k r).mpr ⟨hc, hk⟩)
  rw [hnone] at hpng
  cases hpng

/-- `get_image` right after `set_image` returns exactly the written value
(including `none` for a clear). -/
theorem get_image_set_image (db : Database) (c : ℤ) (k : String)
    (v : Option (List ℕ)) (ts : String) :
    get_image (set_image db c k v ts) c k = v := by
  show (match (upsertImage db.images c k v ts).find? (rowMatch c k) with
    | none => none
    | some r => r.png) = v
  unfold upsertImage
  by_cases hany : db.images.any (rowMatch c k) = true
  · rw [if_pos hany, find_map_pred_inv _ _ _ (rowMatch_update c k v ts)]
    cases hfind : db.images.find? (rowMatch c k) with
    | none =>
      rcases List.any_eq_true.mp hany with ⟨r0, hr0, hm⟩
      exact absurd hm (List.find?_eq_none.mp hfind r0 hr0)
    | some r =>
      have hm : rowMatch c k r = true := List.find?_some hfind
      rw [Option.map_some']
      show (if rowMatch c k r = true then
        ({ r with png := v, updated_at := ts } : ImageRow) else r).png = v
      rw [if_pos hm]
  · rw [if_neg hany]
    have hnone : db.images.find? (rowMatch c k) = none :=
      List.find?_eq_none.mpr (fun a ha hm => hany (List.any_eq_true.mpr ⟨a, ha, hm⟩))
    rw [List.find?_append, hnone, Option.none_or,
      List.find?_cons_of_pos [] ((rowMatch_iff c k _).mpr ⟨rfl, rfl⟩)]

theorem countKey_upsert (rows : List ImageRow) (c : ℤ) (k : String)
    (v : Option (List ℕ)) (ts : String) :
    countKey (upsertImage rows c k v ts) c k =
      if rows.any (rowMatch c k) = true then countKey rows c k
      else countKey rows c k + 1 := by
  unfold upsertImage countKey
  by_cases hany : rows.any (rowMatch c k) = true
  · rw [if_pos hany, if_pos hany, filter_map_pred_inv _ _ _ (rowMatch_update c k v ts)]
  · rw [if_neg hany, if_neg hany, List.filter_append, List.length_append]
    have hm : rowMatch c k ⟨c, k, v, ts⟩ = true := (rowMatch_iff c k _).mpr ⟨rfl, rfl⟩
    simp [hm]

theorem any_iff_countKey_pos (rows : List ImageRow) (c : ℤ) (k : String) :
    rows.any (rowMatch c k) = true ↔ 0 < countKey rows c k := by
  unfold countKey
  rw [List.any_eq_true, List.length_pos]
  constructor
  · rintro ⟨r, hr, hm⟩ he
    have : r ∈ rows.filter (rowMatch c k) := List.mem_filter.mpr ⟨hr, hm⟩
    rw [he] at this
    cases this
  · intro h
    rcases List.exists_mem_of_ne_nil _ h with ⟨r, hr⟩
    rcases List.mem_filter.mp hr with ⟨h1, h2⟩
    exact ⟨r, h1, h2⟩

theorem cardMatch_update (c c2 : ℤ) (ts : String) (r : CardRow) :
    decide ((if r.id = c2 then { r with updated_at := ts } else r).id = c) =
      decide (r.id = c) := by
  by_cases h : r.id = c2
  · rw [if_pos h]
  · rw [if_neg h]

theorem touch_card_updatedAt (db : Database) (c : ℤ) (ts : String)
    (h : (db.cards.find? (fun r => decide (r.id = c))).isSome = true) :
    cardUpdatedAt (touch_card db c ts) c = some ts := by
  unfold cardUpdatedAt touch_card
  rw [find_map_pred_inv _ _ _ (cardMatch_update c c ts)]
  cases hf : db.cards.find? (fun r => decide (r.id = c)) with
  | none => rw [hf] at h; cases h
  | some r =>
    have hm := List.find?_some hf
    rw [Option.map_some', Option.map_some']
    show some (if r.id = c then ({ r with updated_at := ts } : CardRow) else r).updated_at
      = some ts
    rw [if_pos (of_decide_eq_true hm)]

theorem touch_card_find_isSome (db : Database) (c c2 : ℤ) (ts : String) :
    ((touch_card db c2 ts).cards.find? (fun r => decide (r.id = c))).isSome =
      (db.cards.find? (fun r => decide (r.id = c))).isSome := by
  unfold touch_card
  rw [find_map_pred_inv _ _ _ (cardMatch_update c c2 ts)]
  cases db.cards.find? (fun r => decide (r.id = c)) <;> rfl

/-- `set_image` bumps the card's `updated_at` to its timestamp. -/
theorem set_image_updatedAt (db : Database) (c : ℤ) (k : String)
    (v : Option (List ℕ)) (ts : String)
    (h : (db.cards.find? (fun r => decide (r.id = c))).isSome = true) :
    cardUpdatedAt (set_image db c k v ts) c = some ts :=
  touch_card_updatedAt _ c ts h

theorem set_image_find_isSome (db : Database) (c c2 : ℤ) (k : String)
    (v : Option (List ℕ)) (ts : String) :
    ((set_image db c2 k v ts).cards.find? (fun r => decide (r.id = c))).isSome =
      (db.cards.find? (fun r => decide (r.id = c))).isSome :=
  touch_card_find_isSome _ c c2 ts

/-! ## C7 — clearing removes the slot from the mapping -/

/-- **C7.** After `set_image(card, slot, None)`, the slot key is entirely
absent from the mapping returned by `get_images_for_card(card)`: no pair
with that key — in particular not one with an empty value — is in the
result, for every prior database state. -/
theorem clear_removes_slot (db : Database) (c : ℤ) (k : String) (ts : String) :
    ∀ b : List ℕ, (k, b) ∉ get_images_for_card (set_image db c k none ts) c :=
  clear_absent db c k ts

/-! ## C8 — slot upsert idempotence and timestamp bumping -/

/-- **C8.** Writing the same bytes twice leaves the stored value equal to
the bytes with exactly one row for the `(card, slot)` pair (upsert), and
each call sets the card's `updated_at` to its own clock reading, so across
the two calls the timestamp is monotonically non-decreasing whenever the
clock is. -/
theorem set_image_upsert_idempotent (db : Database) (c : ℤ) (k : String) (b : List ℕ)
    (ts1 ts2 : String)
    (hcard : (db.cards.find? (fun r => decide (r.id = c))).isSome = true)
    (hpk : countKey db.images c k ≤ 1) (hts : ts1 ≤ ts2) :
    get_image (set_image (set_image db c k (some b) ts1) c k (some b) ts2) c k = some b ∧
    countKey (set_image (set_image db c k (some b) ts1) c k (some b) ts2).images c k = 1 ∧
    cardUpdatedAt (set_image db c k (some b) ts1) c = some ts1 ∧
    cardUpdatedAt (set_image (set_image db c k (some b) ts1) c k (some b) ts2) c
      = some ts2 ∧
    ts1 ≤ ts2 := by
  have h1 : countKey (set_image db c k (some b) ts1).images c k = 1 := by
    rw [set_image_images, countKey_upsert]
    by_cases hany : db.images.any (rowMatch c k) = true
    · rw [if_pos hany]
      have := (any_iff_countKey_pos db.images c k).mp hany
      omega
    · rw [if_neg hany]
      have : ¬ 0 < countKey db.images c k :=
        fun hpos => hany ((any_iff_countKey_pos _ _ _).mpr hpos)
      omega
  have h2 : countKey (set_image (set_image db c k (some b) ts1) c k (some b) ts2).images c k
      = 1 := by
    rw [set_image_images, countKey_upsert,
      if_pos ((any_iff_countKey_pos _ _ _).mpr (by rw [h1]; omega))]
    exact h1
  refine ⟨get_image_set_image _ _ _ _ _, h2, set_image_updatedAt db c k _ ts1 hcard, ?_, hts⟩
  apply set_image_updatedAt
  rw [set_image_find_isSome]
  exact hcard

/-- Concrete database with one card and no images. -/
def dbW : Database := ⟨[⟨1, "Bytová jednotka 3", "t0", "t0"⟩], []⟩

theorem set_image_upsert_idempotent_witness :
    (dbW.cards.find? (fun r => decide (r.id = 1))).isSome = true ∧
    countKey dbW.images 1 "wc" ≤ 1 ∧ ("t1" : String) ≤ "t1" ∧
    get_image (set_image (set_image dbW 1 "wc" (some [7]) "t1") 1 "wc" (some [7]) "t1")
      1 "wc" = some [7] :=
  ⟨by decide, by decide, le_refl _,
    (set_image_upsert_idempotent dbW 1 "wc" [7] "t1" "t1"
      (by decide) (by decide) (le_refl _)).1⟩

/-! ## C10 — the two read operations agree on slot absence -/

theorem wf_match_unique (rows : List ImageRow) (hwf : ImagesWF rows) (c : ℤ) (k : String)
    (r r' : ImageRow) (hr : r ∈ rows) (hr' : r' ∈ rows)
    (hm : rowMatch c k r = true) (hm' : rowMatch c k r' = true) : r = r' := by
  induction rows with
  | nil => cases hr
  | cons a l ih =>
    unfold ImagesWF at hwf
    have ha := (List.pairwise_cons.mp hwf).1
    have hl : ImagesWF l := (List.pairwise_cons.mp hwf).2
    rcases (rowMatch_iff c k r).mp hm with ⟨hc1, hk1⟩
    rcases (rowMatch_iff c k r').mp hm' with ⟨hc2, hk2⟩
    rcases List.mem_cons.mp hr with heq | hmem
    · rcases List.mem_cons.mp hr' with heq' | hmem'
      · rw [heq, heq']
      · exfalso
        apply ha r' hmem'
        rw [← heq]
        exact ⟨hc1.trans hc2.symm, hk1.trans hk2.symm⟩
    · rcases List.mem_cons.mp hr' with heq' | hmem'
      · exfalso
        apply ha r hmem
        rw [← heq']
        exact ⟨hc2.trans hc1.symm, hk2.trans hk1.symm⟩
      · exact ih hl hmem hmem'

/-- **C10.** Under the `(card_id, field_key)` primary-key invariant,
`get_image` returns `none` exactly when the key is absent from
`get_images_for_card`'s mapping; and after clearing a slot a row for the
key persists in the table with a NULL blob, while both read operations
report the slot as absent. -/
theorem read_operations_agree (db : Database) (c : ℤ) (k : String) (ts : String)
    (hwf : ImagesWF db.images) :
    (get_image db c k = none ↔ ∀ b : List ℕ, (k, b) ∉ get_images_for_card db c) ∧
    (∃ r ∈ (set_image db c k none ts).images,
      r.card_id = c ∧ r.field_key = k ∧ r.png = none) ∧
    get_image (set_image db c k none ts) c k = none ∧
    (∀ b : List ℕ, (k, b) ∉ get_images_for_card (set_image db c k none ts) c) := by
  refine ⟨⟨?_, ?_⟩, ?_, get_image_set_image db c k none ts, clear_absent db c k ts⟩
  · intro hget b hmem
    rw [mem_images_map] at hmem
    rcases hmem with ⟨r, hr, hc, hk, hpng⟩
    unfold get_image at hget
    cases hfind : db.images.find? (rowMatch c k) with
    | none =>
      exact List.find?_eq_none.mp hfind r hr ((rowMatch_iff c k r).mpr ⟨hc, hk⟩)
    | some r0 =>
      rw [hfind] at hget
      have hr0png : r0.png = none := hget
      have hr0mem : r0 ∈ db.images := List.mem_of_find?_eq_some hfind
      have hr0m : rowMatch c k r0 = true := List.find?_some hfind
      have hrr0 : r = r0 := wf_match_unique db.images hwf c k r r0 hr hr0mem
        ((rowMatch_iff c k r).mpr ⟨hc, hk⟩) hr0m
      rw [hrr0, hr0png] at hpng
      cases hpng
  · intro habs
    unfold get_image
    cases hfind : db.images.find? (rowMatch c k) with
    | none => rfl
    | some r0 =>
      show r0.png = none
      cases hpng : r0.png with
      | none => rfl
      | some b =>
        exfalso
        rcases (rowMatch_iff c k r0).mp (List.find?_some hfind) with ⟨hc, hk⟩
        exact habs b ((mem_images_map db c k b).mpr
          ⟨r0, List.mem_of_find?_eq_some hfind, hc, hk, hpng⟩)
  · rcases upsert_mem_match db.images c k none ts with ⟨r, hr, hm, hpng⟩
    rcases (rowMatch_iff c k r).mp hm with ⟨hc, hk⟩
    exact ⟨r, by rw [set_image_images]; exact hr, hc, hk, hpng⟩

/-- Concrete database with one stored image. -/
def dbW2 : Database := ⟨[], [⟨1, "wc", some [7], "t0"⟩]⟩

theorem read_operations_agree_witness :
    ImagesWF dbW2.images ∧
    get_image (set_image dbW2 1 "wc" none "t1") 1 "wc" = none :=
  ⟨by unfold ImagesWF dbW2; simp,
    (read_operations_agree dbW2 1 "wc" "t1" (by unfold ImagesWF dbW2; simp)).2.2.1⟩

end KajovoPasport
